import Mathlib

/-!
Shallow embedding of the `rcloneb` program (packages `rclone`, `queue`, and
the `main` application model) together with proofs about the specified
behaviour of its transfer manager, progress parser, download queue, and
browser navigation.

Modelling conventions:
* Go `float64` values are modelled as exact rationals (`ℚ`); the only
  float-to-integer conversion in scope, `int64(v * multiplier)`, truncates
  toward zero and is modelled by `Int.tdiv` on the rational's numerator and
  denominator.  For every concrete value proved below, the exact-rational
  result and the IEEE-754 double result agree (the fractional parts are
  bounded away from integers by far more than the double rounding error).
* Go `int64` / `int` are modelled as `ℤ` (no arithmetic in scope overflows).
* The Go map `map[string]*Transfer` is modelled as the lookup function
  `String → Option Transfer`; mutating a `*Transfer` held in the map is
  modelled by replacing the entry's value.
* `time.Now()` is an input of the environment and is passed explicitly as a
  `now : ℕ` argument to the operations that read the clock.
* A Go pointer into a slice (`&q.items[i]`) is modelled by the index `i` it
  denotes, together with `derefWrite`, the effect of a store through it.
-/

namespace rclone

/-- FileItem (rclone.go): a file or directory listed by rclone. -/
structure FileItem where
  Name : String
  Path : String
  Size : ℤ
  IsDir : Bool
  ModTime : String
deriving Repr, DecidableEq

/-- TransferStatus (rclone.go): the status of a transfer. -/
inductive TransferStatus where
  | StatusPending
  | StatusInProgress
  | StatusCompleted
  | StatusFailed
deriving Repr, DecidableEq

/-- Transfer (rclone.go): an active file transfer.  `Progress` is a Go
float64, modelled as `ℚ`; `StartTime`/`EndTime` are clock readings; `Error`
is the recorded Go error, modelled by its message. -/
structure Transfer where
  ID : String
  Source : String
  Destination : String
  Status : TransferStatus
  Progress : ℚ
  BytesCopied : ℤ
  BytesTotal : ℤ
  Speed : String
  StartTime : ℕ
  EndTime : ℕ
  Error : Option String
deriving Repr, DecidableEq

/-- TransferManager (rclone.go): the registry `transfers map[string]*Transfer`,
modelled as its lookup function. -/
structure TransferManager where
  transfers : String → Option Transfer

/-- NewTransferManager (rclone.go): an empty registry. -/
def NewTransferManager : TransferManager := ⟨fun _ => none⟩

/-- Get (rclone.go:138-142): `return m.transfers[id]`. -/
def TransferManager.Get (m : TransferManager) (id : String) : Option Transfer :=
  m.transfers id

/-- The Go pattern `if t, exists := m.transfers[id]; exists { mutate t }`:
the entry for `id`, when present, is replaced by its mutated value; all
other entries are untouched. -/
def TransferManager.modifyEntry (m : TransferManager) (id : String)
    (f : Transfer → Transfer) : TransferManager :=
  ⟨fun k => if k = id then (m.transfers id).map f else m.transfers k⟩

/-- Add (rclone.go:65-76): registers `id` as a fresh `StatusPending` entry
(overwriting any previous binding of `id`, as Go map assignment does). -/
def TransferManager.Add (m : TransferManager) (id source destination : String)
    (totalBytes : ℤ) : TransferManager :=
  ⟨fun k => if k = id then
      some { ID := id, Source := source, Destination := destination,
             Status := .StatusPending, Progress := 0, BytesCopied := 0,
             BytesTotal := totalBytes, Speed := "", StartTime := 0,
             EndTime := 0, Error := none }
    else m.transfers k⟩

/-- Start (rclone.go:79-89): stamps `StatusInProgress` and the start time on
an existing entry; no-op on a missing id. -/
def TransferManager.Start (m : TransferManager) (id : String) (now : ℕ) :
    TransferManager :=
  m.modifyEntry id (fun t => { t with Status := .StatusInProgress, StartTime := now })

/-- UpdateProgress (rclone.go:92-107): on an existing entry writes progress,
bytes copied and speed, and overwrites the total only when the new total is
positive; no-op on a missing id.  The source checks only existence, not the
entry's status. -/
def TransferManager.UpdateProgress (m : TransferManager) (id : String)
    (progress : ℚ) (bytesCopied bytesTotal : ℤ) (speed : String) : TransferManager :=
  m.modifyEntry id (fun t =>
    { t with Progress := progress, BytesCopied := bytesCopied,
             BytesTotal := if bytesTotal > 0 then bytesTotal else t.BytesTotal,
             Speed := speed })

/-- Complete (rclone.go:110-121): stamps `StatusCompleted`, pins progress to
100 and records the end time on an existing entry; no-op on a missing id. -/
def TransferManager.Complete (m : TransferManager) (id : String) (now : ℕ) :
    TransferManager :=
  m.modifyEntry id (fun t =>
    { t with Status := .StatusCompleted, Progress := 100, EndTime := now })

/-- Fail (rclone.go:124-135): stamps `StatusFailed`, records the error and
the end time on an existing entry; no-op on a missing id. -/
def TransferManager.Fail (m : TransferManager) (id : String) (err : String)
    (now : ℕ) : TransferManager :=
  m.modifyEntry id (fun t =>
    { t with Status := .StatusFailed, Error := some err, EndTime := now })

/-- One call against the transfer manager, for reasoning about operation
sequences. -/
inductive TOp where
  | add (id source destination : String) (totalBytes : ℤ)
  | start (id : String) (now : ℕ)
  | update (id : String) (progress : ℚ) (bytesCopied bytesTotal : ℤ) (speed : String)
  | complete (id : String) (now : ℕ)
  | fail (id : String) (err : String) (now : ℕ)

/-- Dispatch one operation to the corresponding manager method. -/
def TransferManager.applyOp (m : TransferManager) : TOp → TransferManager
  | .add id source destination totalBytes => m.Add id source destination totalBytes
  | .start id now => m.Start id now
  | .update id progress bytesCopied bytesTotal speed =>
      m.UpdateProgress id progress bytesCopied bytesTotal speed
  | .complete id now => m.Complete id now
  | .fail id err now => m.Fail id err now

/-- Run a sequence of manager operations in order. -/
def TransferManager.run (m : TransferManager) (ops : List TOp) : TransferManager :=
  ops.foldl TransferManager.applyOp m

/-- A status is terminal when it is `StatusCompleted` or `StatusFailed`. -/
def isTerminal : TransferStatus → Bool
  | .StatusCompleted => true
  | .StatusFailed => true
  | _ => false

/-- Position of a status along `Pending → InProgress → {Completed, Failed}`. -/
def statusRank : TransferStatus → ℕ
  | .StatusPending => 0
  | .StatusInProgress => 1
  | .StatusCompleted => 2
  | .StatusFailed => 2

/-- The mutation discipline actually followed by the orchestrator
(`CopyFile` / `startDownloads`): an id is registered at most once, and
`Start`, `Complete`, `Fail` are never applied to an entry that already has a
terminal status.  `UpdateProgress` is unrestricted. -/
def okOp (m : TransferManager) : TOp → Bool
  | .add id _ _ _ => (m.Get id).isNone
  | .start id _ => Option.all (fun t => !isTerminal t.Status) (m.Get id)
  | .update _ _ _ _ _ => true
  | .complete id _ => Option.all (fun t => !isTerminal t.Status) (m.Get id)
  | .fail id _ _ => Option.all (fun t => !isTerminal t.Status) (m.Get id)

/-- A whole sequence of operations follows the discipline `okOp`, each step
judged against the state it is applied in. -/
def okRun : TransferManager → List TOp → Bool
  | _, [] => true
  | m, o :: os => okOp m o && okRun (m.applyOp o) os

end rclone

namespace queue

/-- ItemStatus (queue package): the status of a queue item. -/
inductive ItemStatus where
  | StatusPending
  | StatusDownloading
  | StatusCompleted
  | StatusError
deriving Repr, DecidableEq

/-- Item (queue package): a file or directory in the download queue. -/
structure Item where
  Remote : String
  Path : String
  Name : String
  Size : ℤ
  IsDir : Bool
  Status : ItemStatus
  Progress : ℚ
  Speed : String
  Error : Option String
deriving Repr, DecidableEq

/-- Queue (queue package): the download queue, a slice of items. -/
structure Queue where
  items : List Item
deriving Repr, DecidableEq

/-- New (queue package): an empty queue. -/
def New : Queue := ⟨[]⟩

/-- The (remote, path) key of a queue item. -/
def keyOf (it : Item) : String × String := (it.Remote, it.Path)

/-- The list of (remote, path) keys stored in a queue, in insertion order. -/
def Queue.pairKeys (q : Queue) : List (String × String) := q.items.map keyOf

/-- Add (queue package): appends a fresh `StatusPending` item built from the
file, unless some stored item already has the same remote and path, in which
case it returns early. -/
def Queue.Add (q : Queue) (remote : String) (file : rclone.FileItem) : Queue :=
  if q.items.any (fun it => decide (it.Remote = remote ∧ it.Path = file.Path)) then q
  else ⟨q.items ++ [{ Remote := remote, Path := file.Path, Name := file.Name,
                      Size := file.Size, IsDir := file.IsDir,
                      Status := .StatusPending, Progress := 0, Speed := "",
                      Error := none }]⟩

/-- A sequence of `Add` calls, in order. -/
def Queue.addAll (q : Queue) (l : List (String × rclone.FileItem)) : Queue :=
  l.foldl (fun acc rf => acc.Add rf.1 rf.2) q

/-- The (remote, path) key contributed by one `Add` call's arguments. -/
def addKey (rf : String × rclone.FileItem) : String × String :=
  (rf.1, rf.2.Path)

/-- Remove (queue package): `if index >= 0 && index < len(q.items)` splice the
item out (`append(q.items[:index], q.items[index+1:]...)`), else do nothing.
The Go `int` index is modelled as `ℤ` so that negative indices are covered. -/
def Queue.Remove (q : Queue) (index : ℤ) : Queue :=
  if 0 ≤ index ∧ index < (q.items.length : ℤ) then
    ⟨q.items.take index.toNat ++ q.items.drop (index.toNat + 1)⟩
  else q

/-- Items (queue package): copies the stored items into a fresh slice and
returns it; the result is a value snapshot sharing no storage with the
queue. -/
def Queue.Items (q : Queue) : List Item := q.items

/-- Len (queue package): number of stored items. -/
def Queue.Len (q : Queue) : ℕ := q.items.length

/-- The loop body of `Queue.UpdateProgress`: walk the items in order and
rewrite the first one whose path matches, then stop (`break`). -/
def updateProgressItems (path : String) (progress : ℚ) (speed : String) :
    List Item → List Item
  | [] => []
  | it :: rest =>
    if it.Path = path then
      { it with Progress := progress, Speed := speed,
                Status := .StatusDownloading } :: rest
    else it :: updateProgressItems path progress speed rest

/-- UpdateProgress (queue package): locate the first item with the given path
(ignoring the remote) and set its progress, speed, and status
`StatusDownloading`; unknown paths are silently ignored. -/
def Queue.UpdateProgress (q : Queue) (path : String) (progress : ℚ)
    (speed : String) : Queue :=
  ⟨updateProgressItems path progress speed q.items⟩

/-- The loop of `GetNextPending` carrying the running index: the Go code
returns `&q.items[i]` for the first `i` whose status is pending. -/
def getNextPendingAux : List Item → ℕ → Option ℕ
  | [], _ => none
  | it :: rest, i =>
    if it.Status = ItemStatus.StatusPending then some i
    else getNextPendingAux rest (i + 1)

/-- GetNextPending (queue package): returns the pointer `&q.items[i]` to the
first pending item, or nil.  The returned pointer into the queue's backing
array is embedded as the index it denotes; a store through the pointer is
`derefWrite`. -/
def Queue.GetNextPending (q : Queue) : Option ℕ :=
  getNextPendingAux q.items 0

/-- A store through a pointer into the queue's backing array: writing the
value `v` at slot `i` of the internal storage. -/
def Queue.derefWrite (q : Queue) (i : ℕ) (v : Item) : Queue :=
  ⟨q.items.set i v⟩

end queue

namespace app

/-- The subset of the application `Model` (model.go) that directory
navigation touches: the current path, the back-navigation stack, the cursor,
and the filter text and its input widget value. -/
structure Model where
  currentPath : String
  pathStack : List String
  fileIndex : ℕ
  filterText : String
  filterInput : String
deriving Repr, DecidableEq

/-- enterDirectory (model.go:250-260): push the current path on the back
stack, descend into `dir` (the root path `""` concatenates without a
separator), and reset cursor and filter. -/
def Model.enterDirectory (m : Model) (dir : String) : Model :=
  { m with pathStack := m.pathStack ++ [m.currentPath],
           currentPath := if m.currentPath = "" then dir
                          else m.currentPath ++ "/" ++ dir,
           fileIndex := 0, filterText := "", filterInput := "" }

/-- goBack (model.go:263-273): when the back stack is non-empty, pop its last
entry into the current path, reset cursor and filter, and report `true`;
otherwise report `false` and change nothing. -/
def Model.goBack (m : Model) : Bool × Model :=
  match m.pathStack.getLast? with
  | none => (false, m)
  | some p => (true, { m with currentPath := p,
                              pathStack := m.pathStack.dropLast,
                              fileIndex := 0, filterText := "",
                              filterInput := "" })

end app

namespace rclone

/-- The whitespace class of Go regular expressions (`\s`): tab, newline,
form feed, carriage return, space. -/
def isGoSpace (c : Char) : Bool :=
  decide (c = ' ' ∨ c = '\t' ∨ c = '\n' ∨ c = '\x0c' ∨ c = '\r')

/-- The character class `[0-9.]` of `statsRegex`. -/
def isNumChar (c : Char) : Bool :=
  decide (('0' ≤ c ∧ c ≤ '9') ∨ c = '.')

/-- The character class `[0-9]` of `statsRegex`. -/
def isDigitCh (c : Char) : Bool :=
  decide ('0' ≤ c ∧ c ≤ '9')

/-- The character class `[kKMGTP]` opening a unit in `statsRegex`. -/
def isUnitHead (c : Char) : Bool :=
  decide (c = 'k' ∨ c = 'K' ∨ c = 'M' ∨ c = 'G' ∨ c = 'T' ∨ c = 'P')

/-- The character class `[Bb]` closing a unit in `statsRegex`. -/
def isBb (c : Char) : Bool :=
  decide (c = 'B' ∨ c = 'b')

/-- Consume the literal `lit` from the front of `s`. -/
def dropLit : List Char → List Char → Option (List Char)
  | [], s => some s
  | _ :: _, [] => none
  | c :: cs, d :: ds => if d = c then dropLit cs ds else none

/-- Match the unit subpattern `[kKMGTP]i?[Bb]?` of `statsRegex` at the front
of `s`, returning the captured group and the rest.  Each of its three pieces
is matched greedily; since the classes involved are pairwise disjoint from
what may follow, greedy matching here agrees with the regexp engine. -/
def matchUnit (s : List Char) : Option (List Char × List Char) :=
  match s with
  | [] => none
  | c :: rest =>
    if isUnitHead c then
      let gi : List Char × List Char :=
        match rest with
        | 'i' :: r => ([c, 'i'], r)
        | _ => ([c], rest)
      match gi.2 with
      | b :: r2 => if isBb b then some (gi.1 ++ [b], r2) else some gi
      | [] => some gi
    else none

/-- Attempt of `statsRegex` (rclone.go:226) anchored at the front of `s`:
`Transferred:\s+([0-9.]+)\s*([kKMGTP]i?[Bb]?)\s*/\s*([0-9.]+)\s*([kKMGTP]i?[Bb]?),\s*([0-9]+)%`.
Adjacent pieces of the pattern draw from disjoint character classes, so the
greedy left-to-right scan below needs no backtracking and agrees with the
regexp engine.  The result lists the five captured groups. -/
def tryMatchStats (s : List Char) :
    Option (List Char × List Char × List Char × List Char × List Char) := do
  let s ← dropLit ("Transferred:".toList) s
  guard (s.takeWhile isGoSpace ≠ [])
  let s := s.dropWhile isGoSpace
  let g1 := s.takeWhile isNumChar
  guard (g1 ≠ [])
  let s := s.dropWhile isNumChar
  let s := s.dropWhile isGoSpace
  let (g2, s) ← matchUnit s
  let s := s.dropWhile isGoSpace
  let s ← dropLit ("/".toList) s
  let s := s.dropWhile isGoSpace
  let g3 := s.takeWhile isNumChar
  guard (g3 ≠ [])
  let s := s.dropWhile isNumChar
  let s := s.dropWhile isGoSpace
  let (g4, s) ← matchUnit s
  let s ← dropLit (",".toList) s
  let s := s.dropWhile isGoSpace
  let g5 := s.takeWhile isDigitCh
  guard (g5 ≠ [])
  let s := s.dropWhile isDigitCh
  let _ ← dropLit ("%".toList) s
  pure (g1, g2, g3, g4, g5)

/-- FindStringSubmatch of `statsRegex` on a line: try the anchored match at
each position from the left and return the groups of the leftmost match. -/
def findStats : List Char →
    Option (List Char × List Char × List Char × List Char × List Char)
  | [] => none
  | c :: rest =>
    match tryMatchStats (c :: rest) with
    | some g => some g
    | none => findStats rest

/-- Numeric value of a digit string. -/
def digitsToNat (l : List Char) : ℕ :=
  l.foldl (fun n c => 10 * n + (c.toNat - Char.toNat '0')) 0

/-- strconv.ParseFloat on the strings the parser passes it (drawn from
`[0-9.]+` or `[0-9]+`): at most one dot and at least one digit; the parsed
float is modelled by its exact decimal value, carried as the pair
`(mant, k)` denoting `mant / 10 ^ k` (the digits with the dot removed, and
the number of fractional digits).  Inputs Go rejects (no digits, or a
second dot) yield `none`. -/
def parseDec (s : List Char) : Option (ℕ × ℕ) :=
  let ip := s.takeWhile isDigitCh
  let r := s.dropWhile isDigitCh
  match r with
  | [] => if ip = [] then none else some (digitsToNat ip, 0)
  | '.' :: r2 =>
    let fp := r2.takeWhile isDigitCh
    let r3 := r2.dropWhile isDigitCh
    if r3 = [] ∧ (ip ≠ [] ∨ fp ≠ []) then
      some (digitsToNat ip * 10 ^ fp.length + digitsToNat fp, fp.length)
    else none
  | _ => none

/-- TrimSuffix by one character: remove one trailing `c` when present. -/
def trimOneSuffix (s : List Char) (c : Char) : List Char :=
  match s.reverse with
  | [] => s
  | d :: rest => if d = c then rest.reverse else s

/-- parseSize (rclone.go:229-255): parse the numeric value (a parse error
decodes as 0), normalize the unit by upper-casing, trimming spaces and then
one trailing B and one trailing I, pick the binary multiplier, and truncate
`val * float64(multiplier)` to an integer byte count.  The parsed value is
exactly `mant / 10 ^ k`, so Go's `int64(...)` truncation toward zero is
`Int.tdiv (mant * multiplier) (10 ^ k)`. -/
def parseSize (value unit : List Char) : ℤ :=
  match parseDec value with
  | none => 0
  | some (mant, k) =>
    let u := ((unit.dropWhile isGoSpace).reverse.dropWhile isGoSpace).reverse.map Char.toUpper
    let u := trimOneSuffix u 'B'
    let u := trimOneSuffix u 'I'
    let multiplier : ℤ :=
      if u = ['K'] then 1024
      else if u = ['M'] then 1024 * 1024
      else if u = ['G'] then 1024 * 1024 * 1024
      else if u = ['T'] then 1024 * 1024 * 1024 * 1024
      else if u = ['P'] then 1024 * 1024 * 1024 * 1024 * 1024
      else 1
    Int.tdiv ((mant : ℤ) * multiplier) ((10 : ℤ) ^ k)

/-- The per-line body of `parseRcloneOutput` (rclone.go:342-352): match the
line against `statsRegex`; on a match whose percentage parses, emit the
progress event `(percentage, bytesCopied, bytesTotal)` that is passed to
`UpdateProgress` (with an empty speed string); otherwise emit nothing.
The percentage group draws from `[0-9]+`, so its parsed float64 is exactly
the integer value `mant` of its digits (`k = 0`). -/
def decodeProgressLine (line : List Char) : Option (ℚ × ℤ × ℤ) :=
  match findStats line with
  | none => none
  | some (g1, g2, g3, g4, g5) =>
    match parseDec g5 with
    | none => none
    | some (mant, _) => some ((mant : ℚ), parseSize g1 g2, parseSize g3 g4)

/-- The custom bufio.SplitFunc of `parseRcloneOutput` (rclone.go:309-334)
applied to a complete stream: cut a token at each `\r` or `\n`, treating a
`\r` immediately followed by `\n` as one delimiter; data left at EOF is the
final token.  `cur` is the text of the current token read so far, reversed. -/
def splitCRLF : List Char → List Char → List (List Char)
  | [], cur => if cur = [] then [] else [cur.reverse]
  | '\r' :: '\n' :: rest, cur => cur.reverse :: splitCRLF rest []
  | '\r' :: rest, cur => cur.reverse :: splitCRLF rest []
  | '\n' :: rest, cur => cur.reverse :: splitCRLF rest []
  | c :: rest, cur => splitCRLF rest (c :: cur)

/-- The scan loop of `parseRcloneOutput` (rclone.go:336-340): the tokens of
the stream with empty lines discarded. -/
def scanLines (stream : List Char) : List (List Char) :=
  (splitCRLF stream []).filter (fun l => !l.isEmpty)

/-- parseRcloneOutput (rclone.go:300-355) as a stream function: the progress
events emitted to the transfer manager, in order. -/
def parseRcloneOutput (stream : List Char) : List (ℚ × ℤ × ℤ) :=
  (scanLines stream).filterMap decodeProgressLine

end rclone

/-- A pending queue item, used as concrete test data. -/
def exItemA : queue.Item :=
  { Remote := "r1", Path := "a", Name := "a", Size := 100, IsDir := false,
    Status := .StatusPending, Progress := 0, Speed := "", Error := none }

/-- The value of `exItemA` after a caller overwrites its name, used to
exercise stores through returned references. -/
def exItemA2 : queue.Item :=
  { Remote := "r1", Path := "a", Name := "changed", Size := 100, IsDir := false,
    Status := .StatusPending, Progress := 0, Speed := "", Error := none }

/-- A completed queue item with path "b", used as concrete test data. -/
def exItemB : queue.Item :=
  { Remote := "r1", Path := "b", Name := "b", Size := 7, IsDir := false,
    Status := .StatusCompleted, Progress := 100, Speed := "", Error := none }

/-- A second item with the same path "b" on another remote, in error state. -/
def exItemB2 : queue.Item :=
  { Remote := "r2", Path := "b", Name := "b", Size := 9, IsDir := true,
    Status := .StatusError, Progress := 0, Speed := "", Error := some "boom" }

/-- A file listing entry matching `exItemA`, used as concrete test data. -/
def exFileA : rclone.FileItem :=
  { Name := "a", Path := "a", Size := 100, IsDir := false, ModTime := "" }

/-- The transfer "t" as registered by `Add "t" "s" "d" 1`. -/
def exTransfer0 : rclone.Transfer :=
  { ID := "t", Source := "s", Destination := "d", Status := .StatusPending,
    Progress := 0, BytesCopied := 0, BytesTotal := 1, Speed := "",
    StartTime := 0, EndTime := 0, Error := none }

/-- The transfer "t" after `Start "t" 0` and `Complete "t" 1`. -/
def exTransfer1 : rclone.Transfer :=
  { ID := "t", Source := "s", Destination := "d", Status := .StatusCompleted,
    Progress := 100, BytesCopied := 0, BytesTotal := 1, Speed := "",
    StartTime := 0, EndTime := 1, Error := none }

open rclone queue app

/-- C8: for every model state and directory name, entering the directory and
then navigating back reports success, restores exactly the prior current
path (including the empty-string root path), and pops the pushed entry off
the back stack. -/
theorem c8_enter_then_back_restores (m : app.Model) (dir : String) :
    ((m.enterDirectory dir).goBack).1 = true ∧
    ((m.enterDirectory dir).goBack).2.currentPath = m.currentPath ∧
    ((m.enterDirectory dir).goBack).2.pathStack = m.pathStack := by
  unfold app.Model.enterDirectory app.Model.goBack
  simp [List.getLast?_concat, List.dropLast_concat]

/-- C7: on a registered `InProgress` transfer, `UpdateProgress` overwrites
the stored total only for a strictly positive new total: with a total that
is zero or negative it writes progress, bytes copied and speed and leaves
the previously known total unchanged. -/
theorem c7_total_only_overwritten_when_positive
    (m : rclone.TransferManager) (id : String) (t : rclone.Transfer)
    (pct : ℚ) (copied total : ℤ) (speed : String)
    (hget : m.Get id = some t) (hst : t.Status = .StatusInProgress) :
    (total ≤ 0 →
      (m.UpdateProgress id pct copied total speed).Get id =
        some { t with Progress := pct, BytesCopied := copied, Speed := speed }) ∧
    (0 < total →
      (m.UpdateProgress id pct copied total speed).Get id =
        some { t with Progress := pct, BytesCopied := copied,
                      BytesTotal := total, Speed := speed }) := by
  have hbase :
      (m.UpdateProgress id pct copied total speed).Get id =
        some { t with Progress := pct, BytesCopied := copied,
                      BytesTotal := if total > 0 then total else t.BytesTotal,
                      Speed := speed } := by
    simp [rclone.TransferManager.UpdateProgress, rclone.TransferManager.modifyEntry,
      rclone.TransferManager.Get] at hget ⊢
    simp [hget]
  constructor
  · intro hle
    rw [hbase, if_neg (by omega)]
  · intro hpos
    rw [hbase, if_pos (by omega)]

/-- C7 witness: the theorem instantiated at a concrete in-progress transfer,
with totals 0 and 5. -/
theorem c7_witness :
    (((rclone.NewTransferManager.Add "t" "s" "d" 77).Start "t" 3).UpdateProgress
        "t" 50 10 0 "x").Get "t" =
      some { ID := "t", Source := "s", Destination := "d",
             Status := .StatusInProgress, Progress := 50, BytesCopied := 10,
             BytesTotal := 77, Speed := "x", StartTime := 3, EndTime := 0,
             Error := none } ∧
    (((rclone.NewTransferManager.Add "t" "s" "d" 77).Start "t" 3).UpdateProgress
        "t" 50 10 5 "x").Get "t" =
      some { ID := "t", Source := "s", Destination := "d",
             Status := .StatusInProgress, Progress := 50, BytesCopied := 10,
             BytesTotal := 5, Speed := "x", StartTime := 3, EndTime := 0,
             Error := none } := by
  constructor
  · exact (c7_total_only_overwritten_when_positive
      ((rclone.NewTransferManager.Add "t" "s" "d" 77).Start "t" 3) "t"
      { ID := "t", Source := "s", Destination := "d",
        Status := .StatusInProgress, Progress := 0, BytesCopied := 0,
        BytesTotal := 77, Speed := "", StartTime := 3, EndTime := 0,
        Error := none }
      50 10 0 "x" (by decide) (by decide)).1 (by decide)
  · exact (c7_total_only_overwritten_when_positive
      ((rclone.NewTransferManager.Add "t" "s" "d" 77).Start "t" 3) "t"
      { ID := "t", Source := "s", Destination := "d",
        Status := .StatusInProgress, Progress := 0, BytesCopied := 0,
        BytesTotal := 77, Speed := "", StartTime := 3, EndTime := 0,
        Error := none }
      50 10 5 "x" (by decide) (by decide)).2 (by decide)

/-- C1 counterexample: a registered transfer that is still `Pending` (not
`InProgress`) is nevertheless updated by `UpdateProgress` — its progress
field moves from 0 to 50 — so `UpdateProgress` is not a no-op on every
non-`InProgress` registered transfer. -/
theorem c1_counterexample :
    (((rclone.NewTransferManager.Add "t" "src" "dst" 100).Get "t").map
        rclone.Transfer.Status = some rclone.TransferStatus.StatusPending) ∧
    (((rclone.NewTransferManager.Add "t" "src" "dst" 100).Get "t").map
        rclone.Transfer.Progress = some 0) ∧
    ((((rclone.NewTransferManager.Add "t" "src" "dst" 100).UpdateProgress
          "t" 50 10 0 "sp").Get "t").map rclone.Transfer.Progress = some 50) := by
  refine ⟨by decide, by decide, by decide⟩

/-- C1 amended: `UpdateProgress` on a nonexistent ID leaves the whole
registry unchanged; on a registered ID it updates progress, bytes copied
and speed (and the total, when the new total is positive) regardless of the
transfer's status. -/
theorem c1_amended_update_semantics (m : rclone.TransferManager) (id : String)
    (pct : ℚ) (copied total : ℤ) (speed : String) :
    (m.Get id = none → m.UpdateProgress id pct copied total speed = m) ∧
    (∀ t, m.Get id = some t →
      (m.UpdateProgress id pct copied total speed).Get id =
        some { t with Progress := pct, BytesCopied := copied,
                      BytesTotal := if total > 0 then total else t.BytesTotal,
                      Speed := speed }) := by
  constructor
  · intro h
    cases m with
    | mk f =>
      simp only [rclone.TransferManager.Get] at h
      simp only [rclone.TransferManager.UpdateProgress, rclone.TransferManager.modifyEntry]
      congr 1
      funext k
      by_cases hk : k = id
      · subst hk; simp [h]
      · simp [hk]
  · intro t ht
    simp [rclone.TransferManager.UpdateProgress, rclone.TransferManager.modifyEntry,
      rclone.TransferManager.Get] at ht ⊢
    simp [ht]

/-- C1 witness: the amended theorem instantiated at a missing ID on the
empty registry, and at a concrete registered pending transfer. -/
theorem c1_amended_witness :
    (rclone.NewTransferManager.UpdateProgress "x" 1 2 3 "s" =
      rclone.NewTransferManager) ∧
    (((rclone.NewTransferManager.Add "t" "src" "dst" 100).UpdateProgress
        "t" 50 10 0 "sp").Get "t" =
      some { ID := "t", Source := "src", Destination := "dst",
             Status := .StatusPending, Progress := 50, BytesCopied := 10,
             BytesTotal := 100, Speed := "sp", StartTime := 0, EndTime := 0,
             Error := none }) := by
  constructor
  · exact (c1_amended_update_semantics rclone.NewTransferManager "x" 1 2 3 "s").1 rfl
  · rw [(c1_amended_update_semantics
      (rclone.NewTransferManager.Add "t" "src" "dst" 100) "t" 50 10 0 "sp").2
      { ID := "t", Source := "src", Destination := "dst",
        Status := .StatusPending, Progress := 0, BytesCopied := 0,
        BytesTotal := 100, Speed := "", StartTime := 0, EndTime := 0,
        Error := none } (by decide)]
    decide

/-- C2 counterexample: decoding the well-formed progress line does not yield
the copied/total byte counts the claim states (1325723204 and 6097700864);
the decoder actually yields 1324997410 and 6096706076, the truncations of
1.234 * 1024 ^ 3 and 5.678 * 1024 ^ 3. -/
theorem c2_counterexample :
    rclone.decodeProgressLine
        (("Transferred:   1.234 GiB / 5.678 GiB, 22%, 10 MiB/s, ETA 1m30s").toList) ≠
      some (22, 1325723204, 6097700864) ∧
    rclone.decodeProgressLine
        (("Transferred:   1.234 GiB / 5.678 GiB, 22%, 10 MiB/s, ETA 1m30s").toList) =
      some (22, 1324997410, 6096706076) := by
  refine ⟨by decide, by decide⟩

/-- C2 amended: decoding the well-formed progress line yields percentage 22,
copied bytes 1324997410 (the truncation of 1.234 * 1024 ^ 3) and total bytes
6096706076 (the truncation of 5.678 * 1024 ^ 3); the decoder is a pure
function of the line, so decoding the same line again yields the same
values. -/
theorem c2_amended_decode_values :
    rclone.decodeProgressLine
        (("Transferred:   1.234 GiB / 5.678 GiB, 22%, 10 MiB/s, ETA 1m30s").toList) =
      some (22, 1324997410, 6096706076) := by
  decide

/-- Text without delimiter characters only accumulates into the current
token: the splitter walks past it unchanged. -/
lemma splitCRLF_accum (t : List Char) (h : ∀ c ∈ t, c ≠ '\r' ∧ c ≠ '\n') :
    ∀ (cur s : List Char), rclone.splitCRLF (t ++ s) cur = rclone.splitCRLF s (t.reverse ++ cur) := by
  induction t with
  | nil => intro cur s; simp
  | cons c t ih =>
    intro cur s
    have hc := h c (List.mem_cons_self c t)
    have step : rclone.splitCRLF (c :: (t ++ s)) cur = rclone.splitCRLF (t ++ s) (c :: cur) :=
      rclone.splitCRLF.eq_5 cur c (t ++ s)
        (fun _ hcr _ => hc.1 hcr) (fun hcr => hc.1 hcr) (fun hn => hc.2 hn)
    rw [List.cons_append, step, ih (fun x hx => h x (List.mem_cons_of_mem c hx))]
    simp

/-- A lone carriage return not followed by a newline ends the current
token. -/
lemma splitCRLF_cons_cr (s cur : List Char) (hs : s.head? ≠ some '\n') :
    rclone.splitCRLF ('\r' :: s) cur = cur.reverse :: rclone.splitCRLF s [] := by
  cases s with
  | nil => exact rclone.splitCRLF.eq_3 cur [] (fun r hr => by simp at hr)
  | cons a s2 =>
    have ha : a ≠ '\n' := by
      intro h; exact hs (by simp [h])
    exact rclone.splitCRLF.eq_3 cur (a :: s2) (fun r hr => ha (by injection hr))

/-- C4: the progress-stream splitter treats a lone carriage return, a lone
newline, and the carriage-return--newline pair each as a single line
delimiter (first conjunct), the scan loop discards the empty lines produced
by delimiters at the front of the remaining stream (second conjunct), and
the concrete mixed-delimiter stream of the claim splits into exactly its
three expected lines (third conjunct). -/
theorem c4_splitter_delimiters :
    (∀ t s : List Char, (∀ c ∈ t, c ≠ '\r' ∧ c ≠ '\n') →
      rclone.splitCRLF (t ++ '\n' :: s) [] = t :: rclone.splitCRLF s [] ∧
      rclone.splitCRLF (t ++ '\r' :: '\n' :: s) [] = t :: rclone.splitCRLF s [] ∧
      (s.head? ≠ some '\n' →
        rclone.splitCRLF (t ++ '\r' :: s) [] = t :: rclone.splitCRLF s [])) ∧
    (∀ s : List Char,
      rclone.scanLines ('\n' :: s) = rclone.scanLines s ∧
      rclone.scanLines ('\r' :: '\n' :: s) = rclone.scanLines s ∧
      (s.head? ≠ some '\n' → rclone.scanLines ('\r' :: s) = rclone.scanLines s)) ∧
    rclone.scanLines (("progress\rline one\nTransferred:   0.0 GiB / 1.0 GiB, 0%\r\n").toList) =
      [("progress").toList, ("line one").toList,
       ("Transferred:   0.0 GiB / 1.0 GiB, 0%").toList] := by
  refine ⟨?_, ?_, by decide⟩
  · intro t s h
    refine ⟨?_, ?_, ?_⟩
    · rw [splitCRLF_accum t h [] ('\n' :: s), rclone.splitCRLF.eq_4]
      simp
    · rw [splitCRLF_accum t h [] ('\r' :: '\n' :: s), rclone.splitCRLF.eq_2]
      simp
    · intro hs
      rw [splitCRLF_accum t h [] ('\r' :: s), splitCRLF_cons_cr s (t.reverse ++ []) hs]
      simp
  · intro s
    refine ⟨?_, ?_, ?_⟩
    · simp [rclone.scanLines, rclone.splitCRLF.eq_4]
    · simp [rclone.scanLines, rclone.splitCRLF.eq_2]
    · intro hs
      simp [rclone.scanLines, splitCRLF_cons_cr s [] hs]

/-- C4 witness: the delimiter rule of the theorem instantiated at the
concrete token "ab" followed by a newline and the rest "cd". -/
theorem c4_witness :
    rclone.splitCRLF (("ab").toList ++ '\n' :: ("cd").toList) [] =
      ("ab").toList :: rclone.splitCRLF (("cd").toList) [] :=
  (c4_splitter_delimiters.1 (("ab").toList) (("cd").toList) (by decide)).1

/-- C9: `Remove` with an index outside `[0, len)` (including negative
indices) leaves the queue completely unchanged; an in-range index removes
exactly the item at that position: the length drops by one, items before
the index keep their positions, and items after it shift down by one,
preserving relative order. -/
theorem c9_remove_bounds (q : queue.Queue) (i : ℤ) :
    (¬ (0 ≤ i ∧ i < (q.items.length : ℤ)) → q.Remove i = q) ∧
    ((0 ≤ i ∧ i < (q.items.length : ℤ)) →
      (q.Remove i).items.length + 1 = q.items.length ∧
      (∀ j : ℕ, (j : ℤ) < i → (q.Remove i).items[j]? = q.items[j]?) ∧
      (∀ j : ℕ, i ≤ (j : ℤ) → (q.Remove i).items[j]? = q.items[j + 1]?)) := by
  constructor
  · intro h
    simp only [queue.Queue.Remove, if_neg h]
  · rintro ⟨h0, hlt⟩
    have hremove : (q.Remove i).items =
        q.items.take i.toNat ++ q.items.drop (i.toNat + 1) := by
      simp only [queue.Queue.Remove, if_pos (And.intro h0 hlt)]
    have hn : (i.toNat : ℤ) = i := Int.toNat_of_nonneg h0
    have hnlt : i.toNat < q.items.length := by omega
    refine ⟨?_, ?_, ?_⟩
    · rw [hremove, List.length_append, List.length_take, List.length_drop,
        min_eq_left (Nat.le_of_lt hnlt)]
      omega
    · intro j hj
      have hjn : j < i.toNat := by omega
      rw [hremove, List.getElem?_append, List.length_take,
        min_eq_left (Nat.le_of_lt hnlt), if_pos hjn, List.getElem?_take,
        if_pos hjn]
    · intro j hj
      have hjn : i.toNat ≤ j := by omega
      rw [hremove, List.getElem?_append, List.length_take,
        min_eq_left (Nat.le_of_lt hnlt), if_neg (by omega), List.getElem?_drop]
      have harith : i.toNat + 1 + (j - i.toNat) = j + 1 := by omega
      rw [harith]

/-- C9 witness: the theorem instantiated on a concrete two-item queue, with
the out-of-range index 5 and the in-range index 0. -/
theorem c9_witness :
    ((queue.Queue.mk [exItemA, exItemB]).Remove 5 =
      queue.Queue.mk [exItemA, exItemB]) ∧
    ((queue.Queue.mk [exItemA, exItemB]).Remove 0).items.length + 1 =
      (queue.Queue.mk [exItemA, exItemB]).items.length ∧
    ((queue.Queue.mk [exItemA, exItemB]).Remove 0).items[0]? =
      (queue.Queue.mk [exItemA, exItemB]).items[0 + 1]? := by
  refine ⟨(c9_remove_bounds (queue.Queue.mk [exItemA, exItemB]) 5).1 (by decide),
    ((c9_remove_bounds (queue.Queue.mk [exItemA, exItemB]) 0).2 (by decide)).1,
    ((c9_remove_bounds (queue.Queue.mk [exItemA, exItemB]) 0).2 (by decide)).2.2
      0 (by decide)⟩

/-- The update loop of the queue rewrites exactly the first item whose path
matches and keeps every other item as it was. -/
lemma updateProgressItems_split (p : String) (pct : ℚ) (speed : String) :
    ∀ (pre : List queue.Item) (it : queue.Item) (post : List queue.Item),
      (∀ x ∈ pre, x.Path ≠ p) → it.Path = p →
      queue.updateProgressItems p pct speed (pre ++ it :: post) =
        pre ++ { it with Progress := pct, Speed := speed,
                         Status := .StatusDownloading } :: post := by
  intro pre
  induction pre with
  | nil =>
    intro it post _ hit
    simp [queue.updateProgressItems, hit]
  | cons a pre ih =>
    intro it post hpre hit
    have ha : a.Path ≠ p := hpre a (List.mem_cons_self a pre)
    simp only [List.cons_append, queue.updateProgressItems, if_neg ha]
    exact congrArg (fun l => a :: l)
      (ih it post (fun x hx => hpre x (List.mem_cons_of_mem a hx)) hit)

/-- C10: on a queue whose items split as `pre ++ it :: post` where `it` is
the first item with the given path (no item of `pre` matches, the remote is
ignored), `UpdateProgress` rewrites exactly `it` — setting its progress,
speed, and status `StatusDownloading` regardless of its prior status, even
a completed or errored one — and leaves every other item, including later
matches, unchanged. -/
theorem c10_update_first_match (q : queue.Queue) (p : String) (pct : ℚ)
    (speed : String) (pre : List queue.Item) (it : queue.Item)
    (post : List queue.Item) (hsplit : q.items = pre ++ it :: post)
    (hpre : ∀ x ∈ pre, x.Path ≠ p) (hit : it.Path = p) :
    (q.UpdateProgress p pct speed).items =
      pre ++ { it with Progress := pct, Speed := speed,
                       Status := .StatusDownloading } :: post := by
  simp only [queue.Queue.UpdateProgress, hsplit]
  exact updateProgressItems_split p pct speed pre it post hpre hit

/-- C10 witness: a queue holding a completed item and a second item with the
same path on another remote; updating the path moves the first item (only)
back to `StatusDownloading` with the new progress and speed. -/
theorem c10_witness :
    ((queue.Queue.mk [exItemB, exItemB2]).UpdateProgress "b" 50 "sp").items =
      [] ++ { exItemB with Progress := 50, Speed := "sp",
                           Status := .StatusDownloading } :: [exItemB2] :=
  c10_update_first_match (queue.Queue.mk [exItemB, exItemB2]) "b" 50 "sp"
    [] exItemB [exItemB2] (by decide) (by decide) (by decide)

/-- C3 counterexample: on a queue with one pending item, `GetNextPending`
returns the pointer to slot 0 of the internal storage, and a store through
that pointer changes the queue's stored items — the returned value aliases
the queue's internal storage, so not every accessor returns a copy. -/
theorem c3_counterexample :
    queue.Queue.GetNextPending (queue.Queue.mk [exItemA]) = some 0 ∧
    (queue.Queue.mk [exItemA]).derefWrite 0 exItemA2 ≠ queue.Queue.mk [exItemA] ∧
    ((queue.Queue.mk [exItemA]).derefWrite 0 exItemA2).items = [exItemA2] := by
  refine ⟨by decide, by decide, by decide⟩

/-- Setting the slot right after a prefix replaces exactly that element. -/
lemma set_append_length (pre : List queue.Item) (it v : queue.Item)
    (post : List queue.Item) :
    (pre ++ it :: post).set pre.length v = pre ++ v :: post := by
  induction pre with
  | nil => simp
  | cons a pre ih => simp [List.set, ih]

/-- Where the pending scan stops: a success at index `i` splits the list
into a prefix without pending items, the pending item, and the rest. -/
lemma getNextPendingAux_split :
    ∀ (l : List queue.Item) (k i : ℕ), queue.getNextPendingAux l k = some i →
      ∃ pre it post, l = pre ++ it :: post ∧ i = k + pre.length ∧
        it.Status = queue.ItemStatus.StatusPending ∧
        ∀ x ∈ pre, x.Status ≠ queue.ItemStatus.StatusPending := by
  intro l
  induction l with
  | nil => intro k i h; simp [queue.getNextPendingAux] at h
  | cons it rest ih =>
    intro k i h
    by_cases hp : it.Status = queue.ItemStatus.StatusPending
    · simp only [queue.getNextPendingAux, if_pos hp, Option.some.injEq] at h
      exact ⟨[], it, rest, by simp, by simp [h], hp, by simp⟩
    · simp only [queue.getNextPendingAux, if_neg hp] at h
      obtain ⟨pre, it2, post, hsplit, hi, hst, hpre⟩ := ih (k + 1) i h
      refine ⟨it :: pre, it2, post, by simp [hsplit], ?_, hst, ?_⟩
      · simp only [List.length_cons]
        omega
      · intro x hx
        rcases List.mem_cons.mp hx with h1 | h2
        · rw [h1]; exact hp
        · exact hpre x h2

/-- C3 amended: `Items` returns a value snapshot, but `GetNextPending` does
not return a copy: the pointer it returns denotes the slot of the first
pending item inside the queue's own backing array, so a store through it
replaces that stored item in place and is observed by the queue. -/
theorem c3_amended_getnextpending_aliases (q : queue.Queue) (i : ℕ)
    (h : q.GetNextPending = some i) :
    (∃ pre it post, q.items = pre ++ it :: post ∧ i = pre.length ∧
       it.Status = queue.ItemStatus.StatusPending ∧
       (∀ x ∈ pre, x.Status ≠ queue.ItemStatus.StatusPending) ∧
       ∀ v, (q.derefWrite i v).items = pre ++ v :: post) ∧
    (∀ v, (q.derefWrite i v).items[i]? = some v) := by
  simp only [queue.Queue.GetNextPending] at h
  obtain ⟨pre, it, post, hsplit, hi, hst, hpre⟩ :=
    getNextPendingAux_split q.items 0 i h
  have hlen : i = pre.length := by omega
  have hw : ∀ v, (q.derefWrite i v).items = pre ++ v :: post := by
    intro v
    simp only [queue.Queue.derefWrite, hsplit, hlen]
    exact set_append_length pre it v post
  refine ⟨⟨pre, it, post, hsplit, hlen, hst, hpre, hw⟩, ?_⟩
  intro v
  rw [hw v, hlen, List.getElem?_append_right (Nat.le_refl pre.length)]
  simp

/-- C3 witness: on the concrete one-item queue, the store through the
pointer returned by `GetNextPending` lands in slot 0 of the queue's own
storage. -/
theorem c3_amended_witness :
    ((queue.Queue.mk [exItemA]).derefWrite 0 exItemA2).items[0]? =
      some exItemA2 :=
  (c3_amended_getnextpending_aliases (queue.Queue.mk [exItemA]) 0 (by decide)).2
    exItemA2

/-- The duplicate test of `Add` is exactly membership of the (remote, path)
key among the stored keys. -/
lemma mem_pairKeys_iff_any (q : queue.Queue) (r p : String) :
    (r, p) ∈ q.pairKeys ↔
      q.items.any (fun it => decide (it.Remote = r ∧ it.Path = p)) = true := by
  simp [queue.Queue.pairKeys, queue.keyOf, List.any_eq_true, Prod.ext_iff]

/-- A duplicate `Add` returns the queue unchanged. -/
lemma add_of_mem (q : queue.Queue) (r : String) (f : rclone.FileItem)
    (h : (r, f.Path) ∈ q.pairKeys) : q.Add r f = q := by
  simp only [queue.Queue.Add]
  rw [if_pos ((mem_pairKeys_iff_any q r f.Path).mp h)]

/-- A fresh `Add` appends one item and one key. -/
lemma add_fresh (q : queue.Queue) (r : String) (f : rclone.FileItem)
    (h : (r, f.Path) ∉ q.pairKeys) :
    (q.Add r f).items.length = q.items.length + 1 ∧
    (q.Add r f).pairKeys = q.pairKeys ++ [(r, f.Path)] := by
  have hany : ¬ (q.items.any
      (fun it => decide (it.Remote = r ∧ it.Path = f.Path)) = true) :=
    fun hc => h ((mem_pairKeys_iff_any q r f.Path).mpr hc)
  simp only [queue.Queue.Add, if_neg hany]
  constructor
  · simp
  · simp [queue.Queue.pairKeys, queue.keyOf]

/-- Cardinality bookkeeping for one fresh key: adding `k` to the pool grows
the fresh part of `A` by exactly one when `k` is not already used. -/
lemma card_insert_sdiff {α : Type} [DecidableEq α] (k : α) (A B : Finset α)
    (hk : k ∉ B) : (insert k A \ B).card = 1 + (A \ insert k B).card := by
  have hset : insert k A \ B = insert k (A \ insert k B) := by
    ext x
    by_cases hx : x = k
    · subst hx; simp [hk]
    · simp [Finset.mem_sdiff, Finset.mem_insert, hx]
  rw [hset, Finset.card_insert_of_not_mem (by simp)]
  omega

/-- The queue grows by at most the number of distinct keys in the sequence
that are not already present. -/
lemma addAll_length_aux :
    ∀ (l : List (String × rclone.FileItem)) (q : queue.Queue),
      (q.addAll l).items.length ≤
        q.items.length + ((l.map queue.addKey).toFinset \ q.pairKeys.toFinset).card := by
  intro l
  induction l with
  | nil => intro q; simp [queue.Queue.addAll]
  | cons rf rest ih =>
    intro q
    have hfold : q.addAll (rf :: rest) = (q.Add rf.1 rf.2).addAll rest := by
      simp [queue.Queue.addAll]
    by_cases hk : (rf.1, rf.2.Path) ∈ q.pairKeys
    · rw [hfold, add_of_mem q rf.1 rf.2 hk]
      refine le_trans (ih q) (Nat.add_le_add_left (Finset.card_le_card ?_) _)
      refine Finset.sdiff_subset_sdiff ?_ (le_refl _)
      intro x hx
      simp only [List.map_cons, List.toFinset_cons, Finset.mem_insert]
      exact Or.inr hx
    · obtain ⟨hlen, hkeys⟩ := add_fresh q rf.1 rf.2 hk
      rw [hfold]
      refine le_trans (ih (q.Add rf.1 rf.2)) ?_
      rw [hlen, hkeys]
      have hins : (q.pairKeys ++ [(rf.1, rf.2.Path)]).toFinset =
          insert (rf.1, rf.2.Path) q.pairKeys.toFinset := by
        rw [List.toFinset_append, Finset.union_comm, Finset.insert_eq]
        simp
      rw [hins]
      have hknotin : (rf.1, rf.2.Path) ∉ q.pairKeys.toFinset := by
        simpa using hk
      simp only [List.map_cons, List.toFinset_cons, queue.addKey]
      rw [card_insert_sdiff (rf.1, rf.2.Path) ((rest.map queue.addKey).toFinset)
        (q.pairKeys.toFinset) hknotin]
      omega

/-- One `Add` keeps the stored keys pairwise distinct. -/
lemma add_pairKeys_nodup (q : queue.Queue) (r : String) (f : rclone.FileItem)
    (h : q.pairKeys.Nodup) : (q.Add r f).pairKeys.Nodup := by
  by_cases hk : (r, f.Path) ∈ q.pairKeys
  · rw [add_of_mem q r f hk]; exact h
  · rw [(add_fresh q r f hk).2, List.nodup_append]
    refine ⟨h, List.nodup_singleton _, ?_⟩
    intro x hx hx1
    simp only [List.mem_singleton] at hx1
    subst hx1
    exact hk hx

/-- Any sequence of `Add` calls keeps the stored keys pairwise distinct. -/
lemma addAll_nodup_aux :
    ∀ (l : List (String × rclone.FileItem)) (q : queue.Queue),
      q.pairKeys.Nodup → (q.addAll l).pairKeys.Nodup := by
  intro l
  induction l with
  | nil => intro q h; simpa [queue.Queue.addAll] using h
  | cons rf rest ih =>
    intro q h
    have hfold : q.addAll (rf :: rest) = (q.Add rf.1 rf.2).addAll rest := by
      simp [queue.Queue.addAll]
    rw [hfold]
    exact ih (q.Add rf.1 rf.2) (add_pairKeys_nodup q rf.1 rf.2 h)

/-- C6: an `Add` whose (remote, path) pair already occurs in the queue is a
no-op; over any sequence of `Add` calls the queue length grows by at most
the number of distinct (remote, path) pairs in the sequence; and starting
from the empty queue the stored (remote, path) pairs are always pairwise
distinct. -/
theorem c6_add_unique_pairs :
    (∀ (q : queue.Queue) (r : String) (f : rclone.FileItem),
      (r, f.Path) ∈ q.pairKeys → q.Add r f = q) ∧
    (∀ (q : queue.Queue) (l : List (String × rclone.FileItem)),
      (q.addAll l).items.length ≤
        q.items.length + (l.map queue.addKey).toFinset.card) ∧
    (∀ l : List (String × rclone.FileItem),
      (queue.New.addAll l).pairKeys.Nodup) := by
  refine ⟨add_of_mem, ?_, ?_⟩
  · intro q l
    refine le_trans (addAll_length_aux l q) (Nat.add_le_add_left
      (Finset.card_le_card (Finset.sdiff_subset)) _)
  · intro l
    exact addAll_nodup_aux l queue.New (by simp [queue.Queue.pairKeys, queue.New])

/-- C6 witness: the theorem instantiated at a concrete duplicate `Add` (a
no-op) and at a concrete two-element sequence repeating one key (length
bounded by one distinct pair). -/
theorem c6_witness :
    ((queue.Queue.mk [exItemA]).Add "r1" exFileA = queue.Queue.mk [exItemA]) ∧
    ((queue.New.addAll [("r1", exFileA), ("r1", exFileA)]).items.length ≤
      queue.New.items.length +
        ([("r1", exFileA), ("r1", exFileA)].map queue.addKey).toFinset.card) :=
  ⟨c6_add_unique_pairs.1 (queue.Queue.mk [exItemA]) "r1" exFileA (by decide),
   c6_add_unique_pairs.2.1 queue.New [("r1", exFileA), ("r1", exFileA)]⟩

/-- C5 counterexample: after `Add` and `Complete` the transfer "t" has the
terminal status `StatusCompleted`, yet a further `Start` — one of the
operations the claim quantifies over — moves it back to
`StatusInProgress`: the manager never guards status transitions, so a
terminal status can be left. -/
theorem c5_counterexample :
    ((((rclone.NewTransferManager.Add "t" "s" "d" 1).Complete "t" 0).Get "t").map
        rclone.Transfer.Status = some rclone.TransferStatus.StatusCompleted) ∧
    (((((rclone.NewTransferManager.Add "t" "s" "d" 1).Complete "t" 0).Start
          "t" 1).Get "t").map rclone.Transfer.Status =
      some rclone.TransferStatus.StatusInProgress) := by
  refine ⟨by decide, by decide⟩

/-- One disciplined operation keeps a registered transfer registered, never
lowers its status rank, and never changes a terminal status. -/
lemma applyOp_step (m : rclone.TransferManager) (o : rclone.TOp) (id : String)
    (t : rclone.Transfer) (hok : rclone.okOp m o = true)
    (hget : m.Get id = some t) :
    ∃ t2, (m.applyOp o).Get id = some t2 ∧
      rclone.statusRank t.Status ≤ rclone.statusRank t2.Status ∧
      (rclone.isTerminal t.Status = true → t2.Status = t.Status) := by
  simp only [rclone.TransferManager.Get] at hget
  cases o with
  | add id2 src dst b =>
    simp only [rclone.okOp, rclone.TransferManager.Get,
      Option.isNone_iff_eq_none] at hok
    by_cases hid : id = id2
    · rw [hid, hok] at hget
      cases hget
    · refine ⟨t, ?_, le_refl _, fun _ => rfl⟩
      simp [rclone.TransferManager.applyOp, rclone.TransferManager.Add,
        rclone.TransferManager.Get, hid, hget]
  | start id2 now =>
    by_cases hid : id = id2
    · subst hid
      simp only [rclone.okOp, rclone.TransferManager.Get, hget, Option.all] at hok
      have hterm : rclone.isTerminal t.Status = false := by simpa using hok
      refine ⟨{ t with Status := .StatusInProgress, StartTime := now }, ?_, ?_, ?_⟩
      · simp [rclone.TransferManager.applyOp, rclone.TransferManager.Start,
          rclone.TransferManager.modifyEntry, rclone.TransferManager.Get, hget]
      · show rclone.statusRank t.Status ≤
          rclone.statusRank rclone.TransferStatus.StatusInProgress
        cases hts : t.Status
        · decide
        · decide
        · rw [hts] at hterm; simp [rclone.isTerminal] at hterm
        · rw [hts] at hterm; simp [rclone.isTerminal] at hterm
      · intro hc
        rw [hterm] at hc
        cases hc
    · refine ⟨t, ?_, le_refl _, fun _ => rfl⟩
      simp [rclone.TransferManager.applyOp, rclone.TransferManager.Start,
        rclone.TransferManager.modifyEntry, rclone.TransferManager.Get, hid, hget]
  | update id2 pct bc bt sp =>
    by_cases hid : id = id2
    · subst hid
      refine ⟨{ t with Progress := pct, BytesCopied := bc,
                       BytesTotal := if bt > 0 then bt else t.BytesTotal,
                       Speed := sp }, ?_, le_refl _, fun _ => rfl⟩
      simp [rclone.TransferManager.applyOp, rclone.TransferManager.UpdateProgress,
        rclone.TransferManager.modifyEntry, rclone.TransferManager.Get, hget]
    · refine ⟨t, ?_, le_refl _, fun _ => rfl⟩
      simp [rclone.TransferManager.applyOp, rclone.TransferManager.UpdateProgress,
        rclone.TransferManager.modifyEntry, rclone.TransferManager.Get, hid, hget]
  | complete id2 now =>
    by_cases hid : id = id2
    · subst hid
      simp only [rclone.okOp, rclone.TransferManager.Get, hget, Option.all] at hok
      have hterm : rclone.isTerminal t.Status = false := by simpa using hok
      refine ⟨{ t with Status := .StatusCompleted, Progress := 100,
                       EndTime := now }, ?_, ?_, ?_⟩
      · simp [rclone.TransferManager.applyOp, rclone.TransferManager.Complete,
          rclone.TransferManager.modifyEntry, rclone.TransferManager.Get, hget]
      · show rclone.statusRank t.Status ≤
          rclone.statusRank rclone.TransferStatus.StatusCompleted
        cases t.Status <;> decide
      · intro hc
        rw [hterm] at hc
        cases hc
    · refine ⟨t, ?_, le_refl _, fun _ => rfl⟩
      simp [rclone.TransferManager.applyOp, rclone.TransferManager.Complete,
        rclone.TransferManager.modifyEntry, rclone.TransferManager.Get, hid, hget]
  | fail id2 err now =>
    by_cases hid : id = id2
    · subst hid
      simp only [rclone.okOp, rclone.TransferManager.Get, hget, Option.all] at hok
      have hterm : rclone.isTerminal t.Status = false := by simpa using hok
      refine ⟨{ t with Status := .StatusFailed, Error := some err,
                       EndTime := now }, ?_, ?_, ?_⟩
      · simp [rclone.TransferManager.applyOp, rclone.TransferManager.Fail,
          rclone.TransferManager.modifyEntry, rclone.TransferManager.Get, hget]
      · show rclone.statusRank t.Status ≤
          rclone.statusRank rclone.TransferStatus.StatusFailed
        cases t.Status <;> decide
      · intro hc
        rw [hterm] at hc
        cases hc
    · refine ⟨t, ?_, le_refl _, fun _ => rfl⟩
      simp [rclone.TransferManager.applyOp, rclone.TransferManager.Fail,
        rclone.TransferManager.modifyEntry, rclone.TransferManager.Get, hid, hget]

/-- C5 amended: over every sequence of manager operations that follows the
orchestrator's discipline (`okRun`: an id is registered at most once, and
`Start`, `Complete`, `Fail` are never applied to an entry whose status is
already terminal), the status of a registered transfer is monotone along
`Pending → InProgress → {Completed, Failed}`: its rank never decreases, a
terminal status is never left once reached, and no transfer ever moves
back to `Pending`. -/
theorem c5_amended_monotone_under_discipline (ops : List rclone.TOp)
    (m : rclone.TransferManager) (id : String) (t t2 : rclone.Transfer)
    (hok : rclone.okRun m ops = true) (hget : m.Get id = some t)
    (hget2 : (m.run ops).Get id = some t2) :
    rclone.statusRank t.Status ≤ rclone.statusRank t2.Status ∧
    (rclone.isTerminal t.Status = true → t2.Status = t.Status) ∧
    (t2.Status = rclone.TransferStatus.StatusPending →
      t.Status = rclone.TransferStatus.StatusPending) := by
  have main : ∀ (ops : List rclone.TOp) (m : rclone.TransferManager)
      (t : rclone.Transfer), rclone.okRun m ops = true → m.Get id = some t →
      (m.run ops).Get id = some t2 →
      rclone.statusRank t.Status ≤ rclone.statusRank t2.Status ∧
      (rclone.isTerminal t.Status = true → t2.Status = t.Status) := by
    intro ops
    induction ops with
    | nil =>
      intro m t _ hget hget2
      simp only [rclone.TransferManager.run, List.foldl_nil] at hget2
      rw [hget] at hget2
      have h := Option.some.inj hget2
      exact ⟨by rw [h], fun _ => by rw [h]⟩
    | cons o os ih =>
      intro m t hok hget hget2
      simp only [rclone.okRun, Bool.and_eq_true] at hok
      obtain ⟨h1, h2⟩ := hok
      obtain ⟨tm, hm, hrank, hterm⟩ := applyOp_step m o id t h1 hget
      simp only [rclone.TransferManager.run, List.foldl_cons] at hget2
      obtain ⟨hrank2, hterm2⟩ := ih (m.applyOp o) tm h2 hm hget2
      refine ⟨le_trans hrank hrank2, fun ht => ?_⟩
      have hsm := hterm ht
      have htm : rclone.isTerminal tm.Status = true := by rw [hsm]; exact ht
      rw [hterm2 htm, hsm]
  obtain ⟨ha, hb⟩ := main ops m t hok hget hget2
  refine ⟨ha, hb, ?_⟩
  intro hp
  cases hts : t.Status
  · rfl
  all_goals (rw [hts] at ha; rw [hp] at ha; simp [rclone.statusRank] at ha)

/-- C5 witness: the amended theorem instantiated on the disciplined concrete
run `Start "t"` then `Complete "t"` from a freshly registered transfer. -/
theorem c5_amended_witness :
    rclone.statusRank exTransfer0.Status ≤ rclone.statusRank exTransfer1.Status ∧
    (rclone.isTerminal exTransfer0.Status = true →
      exTransfer1.Status = exTransfer0.Status) ∧
    (exTransfer1.Status = rclone.TransferStatus.StatusPending →
      exTransfer0.Status = rclone.TransferStatus.StatusPending) :=
  c5_amended_monotone_under_discipline
    [rclone.TOp.start "t" 0, rclone.TOp.complete "t" 1]
    (rclone.NewTransferManager.Add "t" "s" "d" 1) "t" exTransfer0 exTransfer1
    (by decide) (by decide) (by decide)
